import Mathlib

/-!
Shallow embedding of the 2048 agent (`agent.py`): board transforms,
the compress-and-merge-left row rule, the move simulator, the heuristic
evaluator, the reward function, the depth-bounded lookahead and the
decision policy.  Boards are lists of rows of natural numbers (Python
lists of lists of non-negative ints); game states are records of
optional fields, a missing field modelling a missing dictionary key.
-/

/-- Move directions of the agent; the Python code passes the four string
literals accepted by `move_local`, a closed enumeration. -/
inductive Direction where
  | up
  | down
  | left
  | right
  deriving DecidableEq, Fintype

/-- Python `transpose(board)`: `[list(row) for row in zip(*board)]`.
On the fixed 4-by-4 boards of this program, `zip` pairs the four rows
pointwise, which is exactly this rearrangement; the program never calls
it on any other shape (the catch-all branch returns the empty board,
mirroring that `zip` truncates degenerate input). -/
def transpose (board : List (List Nat)) : List (List Nat) :=
  match board with
  | [[a0, a1, a2, a3], [b0, b1, b2, b3], [c0, c1, c2, c3], [d0, d1, d2, d3]] =>
      [[a0, b0, c0, d0], [a1, b1, c1, d1], [a2, b2, c2, d2], [a3, b3, c3, d3]]
  | _ => []

/-- Python `reverse(board)`: reverse each row of the board. -/
def reverse (board : List (List Nat)) : List (List Nat) :=
  board.map List.reverse

/-- The while-loop of `compress_and_merge_row_left`, walking the
zero-free row with the `skip` flag: a pair of equal tiles at the cursor
is merged when `skip` is unset (setting `skip` and advancing by two),
otherwise the tile is emitted and `skip` is cleared.  Returns the merged
prefix and the score gained. -/
def mergeLoop : Bool → List Nat → List Nat × Nat
  | _, [] => ([], 0)
  | _, [x] => ([x], 0)
  | skip, x :: y :: rest =>
    if skip = false ∧ x = y then
      ((x * 2) :: (mergeLoop true rest).1, x * 2 + (mergeLoop true rest).2)
    else
      (x :: (mergeLoop false (y :: rest)).1, (mergeLoop false (y :: rest)).2)

/-- Python `compress_and_merge_row_left(row)`: drop zeros, run the merge
loop, re-pad with zeros on the right to the original length.  Returns
the new row and the score gained. -/
def compress_and_merge_row_left (row : List Nat) : List Nat × Nat :=
  let new_row := row.filter (fun val => val != 0)
  let m := mergeLoop false new_row
  (m.1 ++ List.replicate (row.length - m.1.length) 0, m.2)

/-- The per-row loop shared by the four branches of `move_local`: apply
`rowFn` to every row, accumulate the score gains, and set the moved flag
as soon as some processed row differs from the original row. -/
def merge_rows (rowFn : List Nat → List Nat × Nat) : List (List Nat) → List (List Nat) × Nat × Bool
  | [] => ([], 0, false)
  | row :: rest =>
    ((rowFn row).1 :: (merge_rows rowFn rest).1,
     (rowFn row).2 + (merge_rows rowFn rest).2.1,
     (decide ((rowFn row).1 ≠ row)) || (merge_rows rowFn rest).2.2)

/-- Row treatment of the `left` branch of `move_local`. -/
def row_left (row : List Nat) : List Nat × Nat :=
  compress_and_merge_row_left row

/-- Row treatment of the `right` branch of `move_local`: reverse the
row, merge left, reverse back. -/
def row_right (row : List Nat) : List Nat × Nat :=
  ((compress_and_merge_row_left row.reverse).1.reverse,
   (compress_and_merge_row_left row.reverse).2)

/-- Python `move_local(board, direction)`: simulate one move, returning
`(new_board, score_gained, moved_flag)`.  `up` and `down` transpose,
act row-wise, and transpose back, exactly as the four Python branches. -/
def move_local (board : List (List Nat)) : Direction → List (List Nat) × Nat × Bool
  | Direction.left => merge_rows row_left board
  | Direction.right => merge_rows row_right board
  | Direction.up =>
    ((transpose (merge_rows row_left (transpose board)).1),
     (merge_rows row_left (transpose board)).2.1,
     (merge_rows row_left (transpose board)).2.2)
  | Direction.down =>
    ((transpose (merge_rows row_right (transpose board)).1),
     (merge_rows row_right (transpose board)).2.1,
     (merge_rows row_right (transpose board)).2.2)

/-- Python `sum(cell == 0 for row in board for cell in row)`: the number
of empty cells of a board. -/
def empty_count (board : List (List Nat)) : Nat :=
  (board.map (fun row => (row.filter (fun cell => cell == 0)).length)).sum

/-- Python `score_board(board)`: the heuristic evaluator — highest tile,
a 100 bonus when the bottom-right cell holds the highest tile, 2 per
empty cell, and a 50 bonus when the bottom row is non-increasing. -/
def score_board (board : List (List Nat)) : Nat :=
  let highest_tile := (board.map (fun row => row.foldr max 0)).foldr max 0
  let empty_tiles := empty_count board
  let corner_bonus := if (board.getD 3 []).getD 3 0 = highest_tile then 100 else 0
  let last_row := board.getD 3 []
  let mono_bonus :=
    if last_row.getD 0 0 ≥ last_row.getD 1 0 ∧ last_row.getD 1 0 ≥ last_row.getD 2 0 ∧
        last_row.getD 2 0 ≥ last_row.getD 3 0 then 50 else 0
  highest_tile + corner_bonus + empty_tiles * 2 + mono_bonus

/-- A game state as observed from the server: a dictionary whose keys
may be absent, each field `none` when the corresponding key is missing.
The Python reward code indexes `board`, `score` and `highest` directly
(a missing key raises `KeyError`) and reads the terminal flag with
`new_state.get("gameOver", False)`. -/
structure GameState where
  board : Option (List (List Nat))
  score : Option Int
  highest : Option Nat
  gameOver : Option Bool
  deriving DecidableEq

/-- Python `compute_reward(new_state, old_state)`: score delta, a
highest-tile bonus of `100 * (highest // 128)` when a new record tile
appears, 2 per empty cell of the new board, a -500 penalty when the new
state is terminal, and a fixed -1 move penalty.  Field accesses are in
the Python source order; a direct dictionary access of a missing key
propagates as `none`, while the terminal flag defaults to `false`. -/
def compute_reward (new_state old_state : GameState) : Option Int :=
  new_state.score.bind fun new_score =>
  old_state.score.bind fun old_score =>
  let score_gain : Int := new_score - old_score
  new_state.highest.bind fun new_highest =>
  old_state.highest.bind fun old_highest =>
  let highest_tile_bonus : Int :=
    if new_highest > old_highest then 100 * ((new_highest / 128 : Nat) : Int) else 0
  new_state.board.bind fun b =>
  let empty_bonus : Int := (empty_count b : Int) * 2
  let loss_penalty : Int := if new_state.gameOver.getD false then -500 else 0
  let move_penalty : Int := -1
  some (score_gain + highest_tile_bonus + empty_bonus + loss_penalty + move_penalty)

/-- The Python list `possible_moves = ["up", "down", "left", "right"]`,
in its fixed iteration order. -/
def possible_moves : List Direction :=
  [Direction.up, Direction.down, Direction.left, Direction.right]

/-- Python `lookahead_score(board, depth)`: at depth 0 the heuristic
score; otherwise the maximum of the recursive scores of the boards
reached by the legal moves (directions whose moved flag is set), and
the -10000 sentinel when no direction is legal.  The running maximum of
the Python loop (initialised to minus infinity) is the fold with a
`none` accumulator. -/
def lookahead_score (board : List (List Nat)) : Nat → Int
  | 0 => (score_board board : Int)
  | depth + 1 =>
    match (possible_moves.filterMap fun mv =>
        if (move_local board mv).2.2 = true then
          some (lookahead_score (move_local board mv).1 depth)
        else none).foldl
        (fun acc s =>
          match acc with
          | none => some s
          | some m => if s > m then some s else some m) none with
    | none => (-10000 : Int)
    | some m => m

/-- One iteration of the `decide_action` loop: skip an illegal move,
adopt a legal move's depth-2 lookahead score when it strictly beats the
best score so far (a `none` accumulator standing for the initial
minus-infinity best). -/
def decide_step (board : List (List Nat)) (acc : Option (Direction × Int)) (mv : Direction) :
    Option (Direction × Int) :=
  if (move_local board mv).2.2 = false then acc
  else
    match acc with
    | none => some (mv, lookahead_score (move_local board mv).1 2)
    | some p =>
      if lookahead_score (move_local board mv).1 2 > p.2 then
        some (mv, lookahead_score (move_local board mv).1 2)
      else some p

/-- The deterministic part of Python `decide_action`: the best-move loop
over `possible_moves`, returning the best move and its score, or `none`
when every direction is illegal. -/
def decide_action_core (board : List (List Nat)) : Option (Direction × Int) :=
  possible_moves.foldl (decide_step board) none

/-- Python `RL2048Agent.decide_action(state)` on `state["board"]`: the
best-move loop, falling back to `random.choice(possible_moves)` when no
direction is legal; the random draw is modelled by the index `rand`
into `possible_moves`. -/
def decide_action (board : List (List Nat)) (rand : Fin 4) : Direction :=
  match decide_action_core board with
  | some p => p.1
  | none => possible_moves.get ⟨rand.val, rand.isLt⟩

/-- A board of the program's data model: exactly four rows of exactly
four cells. -/
def Wf4 (b : List (List Nat)) : Prop :=
  b.length = 4 ∧ ∀ r ∈ b, r.length = 4

instance (b : List (List Nat)) : Decidable (Wf4 b) :=
  decidable_of_iff (b.length = 4 ∧ ∀ r ∈ b, r.length = 4) Iff.rfl

/-- The legality and depth-2 lookahead value of one candidate move, as
computed inside the `decide_action` loop: `none` when the move does not
change the board, otherwise the lookahead score of the moved board. -/
def move_score (board : List (List Nat)) (mv : Direction) : Option Int :=
  if (move_local board mv).2.2 = true then
    some (lookahead_score (move_local board mv).1 2)
  else none

/-- Position of a direction in the fixed iteration order of
`possible_moves`. -/
def ord : Direction → Nat
  | Direction.up => 0
  | Direction.down => 1
  | Direction.left => 2
  | Direction.right => 3

/-- Invariant of the `decide_action` loop after the first `n` directions
have been processed: a `none` accumulator means none of them was legal,
and an accumulator `some (d, s)` means `d` is the first of the processed
directions attaining the strictly greatest score `s` among the processed
legal directions. -/
def StepInv (board : List (List Nat)) (n : Nat) (acc : Option (Direction × Int)) : Prop :=
  (acc = none → ∀ e, ord e < n → move_score board e = none) ∧
  (∀ d s, acc = some (d, s) → ord d < n ∧ move_score board d = some s ∧
    ∀ e t, ord e < n → move_score board e = some t → t ≤ s ∧ (ord e < ord d → t < s))

theorem list_len_four {α : Type} :
    ∀ (l : List α), l.length = 4 → ∃ a b c d, l = [a, b, c, d]
  | [], h => by simp only [List.length_nil] at h; omega
  | [a], h => by simp only [List.length_cons, List.length_nil] at h; omega
  | [a, b], h => by simp only [List.length_cons, List.length_nil] at h; omega
  | [a, b, c], h => by simp only [List.length_cons, List.length_nil] at h; omega
  | [a, b, c, d], _ => ⟨a, b, c, d, rfl⟩
  | a :: b :: c :: d :: e :: rest, h => by
      simp only [List.length_cons, List.length_nil] at h
      omega

theorem wf4_cells (b : List (List Nat)) (h : Wf4 b) :
    ∃ a0 a1 a2 a3 b0 b1 b2 b3 c0 c1 c2 c3 d0 d1 d2 d3,
      b = [[a0, a1, a2, a3], [b0, b1, b2, b3], [c0, c1, c2, c3], [d0, d1, d2, d3]] := by
  obtain ⟨hlen, hrow⟩ := h
  obtain ⟨r0, r1, r2, r3, rfl⟩ := list_len_four b hlen
  obtain ⟨a0, a1, a2, a3, rfl⟩ := list_len_four r0 (hrow r0 (by simp))
  obtain ⟨b0, b1, b2, b3, rfl⟩ := list_len_four r1 (hrow r1 (by simp))
  obtain ⟨c0, c1, c2, c3, rfl⟩ := list_len_four r2 (hrow r2 (by simp))
  obtain ⟨d0, d1, d2, d3, rfl⟩ := list_len_four r3 (hrow r3 (by simp))
  exact ⟨a0, a1, a2, a3, b0, b1, b2, b3, c0, c1, c2, c3, d0, d1, d2, d3, rfl⟩

theorem transpose_transpose (b : List (List Nat)) (h : Wf4 b) :
    transpose (transpose b) = b := by
  obtain ⟨a0, a1, a2, a3, b0, b1, b2, b3, c0, c1, c2, c3, d0, d1, d2, d3, rfl⟩ := wf4_cells b h
  rfl

theorem transpose_wf (b : List (List Nat)) (h : Wf4 b) : Wf4 (transpose b) := by
  obtain ⟨a0, a1, a2, a3, b0, b1, b2, b3, c0, c1, c2, c3, d0, d1, d2, d3, rfl⟩ := wf4_cells b h
  refine ⟨rfl, ?_⟩
  intro r hr
  simp only [transpose, List.mem_cons, List.not_mem_nil, or_false] at hr
  rcases hr with rfl | rfl | rfl | rfl <;> rfl

/-- Claim C7: for every 4x4 board, transposing twice and reversing every
row twice both give back the original board: the two board transform
utilities are involutions. -/
theorem transpose_reverse_involution (b : List (List Nat)) (h : Wf4 b) :
    transpose (transpose b) = b ∧ reverse (reverse b) = b := by
  refine ⟨transpose_transpose b h, ?_⟩
  simp [reverse, List.map_map, Function.comp_def]

/-- Claim C1: evaluating the row merge rule at the failing input
`[2,2,2,2]`.  The code returns `([4,2,2,0], 4)`, not the `([4,4,0,0], 8)`
of standard 2048 merging that the claim (and the code's own docstring,
"as per 2048 rules") describes: after a merge the loop advances the
cursor past the consumed tile and additionally leaves the `skip` flag
set, so the immediately following merge opportunity is suppressed. -/
theorem merge_row_2222_eval :
    compress_and_merge_row_left [2, 2, 2, 2] = ([4, 2, 2, 0], 4) := by decide

/-- Counterexample to claim C2: the heuristic evaluator does not return
182 on the board whose only tile is a 2 in the bottom-right corner. -/
theorem score_board_corner_two_ne_182 :
    score_board [[0,0,0,0],[0,0,0,0],[0,0,0,0],[0,0,0,2]] ≠ 182 := by decide

/-- Claim C2 amended: the heuristic evaluator returns 132 on that board
— highest tile 2, plus the 100 corner bonus, plus 2 per each of the 15
empty cells, plus no monotonic bonus, because the bottom row
`[0,0,0,2]` is not non-increasing (its third cell 0 is less than its
right neighbour 2). -/
theorem score_board_corner_two_eq_132 :
    score_board [[0,0,0,0],[0,0,0,0],[0,0,0,0],[0,0,0,2]] = 132 := by decide

/-- Counterexample to claim C4: on two identical non-terminal states
whose board holds a single 2 (15 empty cells), the reward is 29, not the
pure move penalty -1 — the empty-cell bonus is taken from the new state
absolutely, not as a delta. -/
theorem compute_reward_identical_ne_neg_one :
    compute_reward
        ⟨some [[2,0,0,0],[0,0,0,0],[0,0,0,0],[0,0,0,0]], some 0, some 2, some false⟩
        ⟨some [[2,0,0,0],[0,0,0,0],[0,0,0,0],[0,0,0,0]], some 0, some 2, some false⟩ ≠
      some (-1) := by decide

/-- Claim C4 amended: on two identical non-terminal states (all fields
present), the reward is twice the number of empty cells of the board
minus one; it equals the pure -1 move penalty exactly when the board has
no empty cell. -/
theorem compute_reward_identical_eq :
    ∀ (b : List (List Nat)) (sc : Int) (hi : Nat),
      compute_reward ⟨some b, some sc, some hi, some false⟩ ⟨some b, some sc, some hi, some false⟩ =
        some (2 * (empty_count b : Int) - 1) := by
  intro b sc hi
  simp [compute_reward]
  ring

theorem mergeLoop_sum : ∀ (skip : Bool) (l : List Nat), ((mergeLoop skip l).1).sum = l.sum := by
  intro skip l
  induction skip, l using mergeLoop.induct with
  | case1 skip => simp [mergeLoop]
  | case2 skip x => simp [mergeLoop]
  | case3 skip x y rest h ih =>
    obtain ⟨hskip, hxy⟩ := h
    simp only [mergeLoop, if_pos (And.intro hskip hxy), List.sum_cons, ih]
    omega
  | case4 skip x y rest h ih =>
    simp only [mergeLoop, if_neg h, List.sum_cons, ih]

theorem filter_ne_zero_sum : ∀ (l : List Nat), (l.filter (fun val => val != 0)).sum = l.sum := by
  intro l
  induction l with
  | nil => simp
  | cons x rest ih =>
    by_cases hx : x = 0
    · subst hx; simp [List.filter_cons, ih]
    · simp [List.filter_cons, hx, ih]

/-- Claim C8: the row merge rule conserves the total tile value — the
sum of the output row equals the sum of the input row (compression drops
only zeros, a merge replaces two equal tiles by their double, and the
padding appends only zeros). -/
theorem merge_row_sum_preserved (row : List Nat) :
    ((compress_and_merge_row_left row).1).sum = row.sum := by
  simp only [compress_and_merge_row_left, List.sum_append, List.sum_replicate, smul_eq_mul,
    Nat.mul_zero, Nat.add_zero]
  rw [mergeLoop_sum, filter_ne_zero_sum]

/-- Counterexample to claim C5: a state missing the terminal field (its
`gameOver` key absent, modelled by `none`) does not make the reward
function fail — the code silently defaults the flag to false and returns
a reward (here -1 on a full board of 2s). -/
theorem compute_reward_missing_gameOver_succeeds :
    compute_reward
        ⟨some [[2,2,2,2],[2,2,2,2],[2,2,2,2],[2,2,2,2]], some 0, some 2, none⟩
        ⟨some [[2,2,2,2],[2,2,2,2],[2,2,2,2],[2,2,2,2]], some 0, some 2, none⟩ =
      some (-1) := by decide

/-- Claim C5 amended: the reward function fails fast (propagates the
missing key as `none`) when the new state misses its score, highest or
board field, or the old state misses its score or highest field; but a
missing terminal flag (`gameOver`) is silently defaulted to false
instead of failing — the result is the same as with the flag present and
false.  (The old state's board and terminal flag are never read.) -/
theorem compute_reward_missing_fields_amended
    (ns os : GameState) (b : List (List Nat)) (sc : Int) (hi : Nat)
    (h : ns.score = none ∨ os.score = none ∨ ns.highest = none ∨ os.highest = none ∨
      ns.board = none) :
    compute_reward ns os = none ∧
      compute_reward ⟨some b, some sc, some hi, none⟩ os =
        compute_reward ⟨some b, some sc, some hi, some false⟩ os := by
  constructor
  · obtain ⟨nb, nsc, nh, ng⟩ := ns
    obtain ⟨ob, osc, oh, og⟩ := os
    rcases nsc with _ | nsc <;> rcases osc with _ | osc <;> rcases nh with _ | nh <;>
      rcases oh with _ | oh <;> rcases nb with _ | nb <;> simp_all [compute_reward]
  · rfl

/-- Witness for C5's amended theorem: a new state missing its score key
makes the reward `none`, and the missing-terminal state is rewarded as
if the flag were false. -/
theorem compute_reward_missing_fields_amended_witness :
    compute_reward ⟨some [[2,2,2,2],[2,2,2,2],[2,2,2,2],[2,2,2,2]], none, some 2, some false⟩
        ⟨some [[2,2,2,2],[2,2,2,2],[2,2,2,2],[2,2,2,2]], some 0, some 2, some false⟩ = none ∧
      compute_reward ⟨some [[0,0,0,0],[0,0,0,0],[0,0,0,0],[0,0,0,2]], some 5, some 2, none⟩
          ⟨some [[2,2,2,2],[2,2,2,2],[2,2,2,2],[2,2,2,2]], some 0, some 2, some false⟩ =
        compute_reward
          ⟨some [[0,0,0,0],[0,0,0,0],[0,0,0,0],[0,0,0,2]], some 5, some 2, some false⟩
          ⟨some [[2,2,2,2],[2,2,2,2],[2,2,2,2],[2,2,2,2]], some 0, some 2, some false⟩ :=
  compute_reward_missing_fields_amended
    ⟨some [[2,2,2,2],[2,2,2,2],[2,2,2,2],[2,2,2,2]], none, some 2, some false⟩
    ⟨some [[2,2,2,2],[2,2,2,2],[2,2,2,2],[2,2,2,2]], some 0, some 2, some false⟩
    [[0,0,0,0],[0,0,0,0],[0,0,0,0],[0,0,0,2]] 5 2 (Or.inl rfl)

theorem merge_rows_flag_iff (f : List Nat → List Nat × Nat) :
    ∀ rows, ((merge_rows f rows).2.2 = true ↔ (merge_rows f rows).1 ≠ rows) := by
  intro rows
  induction rows with
  | nil => simp [merge_rows]
  | cons row rest ih =>
    simp only [merge_rows, Bool.or_eq_true, decide_eq_true_eq, ih, ne_eq, List.cons.injEq,
      not_and]
    tauto

theorem merge_rows_fst (f : List Nat → List Nat × Nat) :
    ∀ rows, (merge_rows f rows).1 = rows.map (fun r => (f r).1) := by
  intro rows
  induction rows with
  | nil => rfl
  | cons row rest ih => simp [merge_rows, ih]

theorem mergeLoop_length_le : ∀ (skip : Bool) (l : List Nat),
    ((mergeLoop skip l).1).length ≤ l.length := by
  intro skip l
  induction skip, l using mergeLoop.induct with
  | case1 skip => simp [mergeLoop]
  | case2 skip x => simp [mergeLoop]
  | case3 skip x y rest h ih =>
    simp only [mergeLoop, if_pos h, List.length_cons]
    omega
  | case4 skip x y rest h ih =>
    simp only [List.length_cons] at ih
    simp only [mergeLoop, if_neg h, List.length_cons]
    omega

theorem compress_and_merge_row_left_length (row : List Nat) :
    ((compress_and_merge_row_left row).1).length = row.length := by
  have h1 : (row.filter (fun val => val != 0)).length ≤ row.length :=
    List.length_filter_le _ _
  have h2 := mergeLoop_length_le false (row.filter (fun val => val != 0))
  simp only [compress_and_merge_row_left, List.length_append, List.length_replicate]
  omega

theorem row_left_length (row : List Nat) : ((row_left row).1).length = row.length :=
  compress_and_merge_row_left_length row

theorem row_right_length (row : List Nat) : ((row_right row).1).length = row.length := by
  simp only [row_right, List.length_reverse]
  rw [compress_and_merge_row_left_length, List.length_reverse]

theorem merge_rows_wf (f : List Nat → List Nat × Nat)
    (hf : ∀ r : List Nat, ((f r).1).length = r.length)
    (b : List (List Nat)) (hb : Wf4 b) : Wf4 (merge_rows f b).1 := by
  obtain ⟨hlen, hrow⟩ := hb
  rw [merge_rows_fst]
  refine ⟨by rw [List.length_map]; exact hlen, ?_⟩
  intro r hr
  obtain ⟨r0, hr0, rfl⟩ := List.mem_map.mp hr
  rw [hf r0]
  exact hrow r0 hr0

theorem transpose_eq_iff (b c : List (List Nat)) (hb : Wf4 b) (hc : Wf4 c) :
    transpose c = b ↔ c = transpose b := by
  constructor
  · intro h
    rw [← h, transpose_transpose c hc]
  · intro h
    rw [h, transpose_transpose b hb]

/-- Claim C3: for every 4x4 board and direction, the moved flag of the
move simulator is true exactly when the returned board differs from the
input board; consequently a move reported as a no-op leaves the board
unchanged, so repeating it is again reported as a no-op. -/
theorem move_local_didChange_iff (board : List (List Nat)) (hwf : Wf4 board) (dir : Direction) :
    ((move_local board dir).2.2 = true ↔ (move_local board dir).1 ≠ board) ∧
      ((move_local board dir).2.2 = false →
        (move_local (move_local board dir).1 dir).2.2 = false) := by
  have hiff : (move_local board dir).2.2 = true ↔ (move_local board dir).1 ≠ board := by
    cases dir with
    | left => exact merge_rows_flag_iff row_left board
    | right => exact merge_rows_flag_iff row_right board
    | up =>
      have hwt : Wf4 (transpose board) := transpose_wf board hwf
      have hnb : Wf4 (merge_rows row_left (transpose board)).1 :=
        merge_rows_wf row_left row_left_length (transpose board) hwt
      have h1 := merge_rows_flag_iff row_left (transpose board)
      show (merge_rows row_left (transpose board)).2.2 = true ↔
        transpose (merge_rows row_left (transpose board)).1 ≠ board
      rw [h1]
      exact not_congr (transpose_eq_iff board _ hwf hnb).symm
    | down =>
      have hwt : Wf4 (transpose board) := transpose_wf board hwf
      have hnb : Wf4 (merge_rows row_right (transpose board)).1 :=
        merge_rows_wf row_right row_right_length (transpose board) hwt
      have h1 := merge_rows_flag_iff row_right (transpose board)
      show (merge_rows row_right (transpose board)).2.2 = true ↔
        transpose (merge_rows row_right (transpose board)).1 ≠ board
      rw [h1]
      exact not_congr (transpose_eq_iff board _ hwf hnb).symm
  refine ⟨hiff, ?_⟩
  intro hfalse
  have heq : (move_local board dir).1 = board := by
    by_contra hne
    have := hiff.mpr hne
    rw [hfalse] at this
    exact Bool.noConfusion this
  rw [heq]
  exact hfalse

/-- Witness for C3 at a concrete board and direction. -/
theorem move_local_didChange_iff_witness :
    ((move_local [[2,4,2,4],[4,2,4,2],[2,4,2,4],[4,2,4,2]] Direction.up).2.2 = true ↔
        (move_local [[2,4,2,4],[4,2,4,2],[2,4,2,4],[4,2,4,2]] Direction.up).1 ≠
          [[2,4,2,4],[4,2,4,2],[2,4,2,4],[4,2,4,2]]) ∧
      ((move_local [[2,4,2,4],[4,2,4,2],[2,4,2,4],[4,2,4,2]] Direction.up).2.2 = false →
        (move_local (move_local [[2,4,2,4],[4,2,4,2],[2,4,2,4],[4,2,4,2]] Direction.up).1
          Direction.up).2.2 = false) :=
  move_local_didChange_iff [[2,4,2,4],[4,2,4,2],[2,4,2,4],[4,2,4,2]] (by decide) Direction.up

/-- Claim C6: on a 4x4 board where no direction changes the board, the
lookahead at any positive depth returns the -10000 sentinel, and this
sentinel is strictly below the heuristic score of every 4x4 board, whose
cells being naturals makes the score a non-negative integer. -/
theorem lookahead_terminal_sentinel (board B2 : List (List Nat)) (d : Nat)
    (_hwf : Wf4 board) (_hwf2 : Wf4 B2)
    (h : ∀ mv, (move_local board mv).2.2 = false) :
    lookahead_score board (d + 1) = -10000 ∧ (-10000 : Int) < (score_board B2 : Int) := by
  constructor
  · simp [lookahead_score, possible_moves, h]
  · have h0 : (0 : Int) ≤ (score_board B2 : Int) := Int.natCast_nonneg _
    omega

/-- Witness for C6 at a concrete terminal board (a full board with no
equal neighbours) at depth 1. -/
theorem lookahead_terminal_sentinel_witness :
    lookahead_score [[2,4,2,4],[4,2,4,2],[2,4,2,4],[4,2,4,2]] (0 + 1) = -10000 ∧
      (-10000 : Int) <
        (score_board [[0,0,0,0],[0,0,0,0],[0,0,0,0],[0,0,0,2]] : Int) :=
  lookahead_terminal_sentinel [[2,4,2,4],[4,2,4,2],[2,4,2,4],[4,2,4,2]]
    [[0,0,0,0],[0,0,0,0],[0,0,0,0],[0,0,0,2]] 0 (by decide) (by decide) (by decide)

/-- Claim C9: on a board with zero legal moves (every direction's moved
flag false), the best-move loop of the decision policy yields nothing,
and the policy returns a direction drawn from `possible_moves` by the
random fallback — a total function on the closed 4-direction
enumeration, so no exception is possible. -/
theorem decide_action_terminal_fallback (board : List (List Nat)) (rand : Fin 4)
    (h : ∀ mv, (move_local board mv).2.2 = false) :
    decide_action_core board = none ∧ decide_action board rand ∈ possible_moves := by
  have hcore : decide_action_core board = none := by
    simp [decide_action_core, possible_moves, decide_step, h]
  refine ⟨hcore, ?_⟩
  unfold decide_action
  rw [hcore]
  exact List.get_mem _ _ _

/-- Witness for C9 at a concrete terminal board and a concrete random
draw. -/
theorem decide_action_terminal_fallback_witness :
    decide_action_core [[2,4,2,4],[4,2,4,2],[2,4,2,4],[4,2,4,2]] = none ∧
      decide_action [[2,4,2,4],[4,2,4,2],[2,4,2,4],[4,2,4,2]] 2 ∈ possible_moves :=
  decide_action_terminal_fallback [[2,4,2,4],[4,2,4,2],[2,4,2,4],[4,2,4,2]] 2 (by decide)

theorem ord_inj : ∀ a b : Direction, ord a = ord b → a = b := by decide

theorem ord_lt_four : ∀ a : Direction, ord a < 4 := by decide

theorem decide_step_of_none (board : List (List Nat)) (acc : Option (Direction × Int))
    (mv : Direction) (h : move_score board mv = none) :
    decide_step board acc mv = acc := by
  unfold move_score at h
  unfold decide_step
  cases hf : (move_local board mv).2.2 with
  | false => simp [hf]
  | true => simp [hf] at h

theorem decide_step_of_some (board : List (List Nat)) (acc : Option (Direction × Int))
    (mv : Direction) (s : Int) (h : move_score board mv = some s) :
    decide_step board acc mv =
      (match acc with
       | none => some (mv, s)
       | some p => if s > p.2 then some (mv, s) else some p) := by
  unfold move_score at h
  cases hf : (move_local board mv).2.2 with
  | false => simp [hf] at h
  | true =>
    simp only [hf, if_pos, Option.some.injEq, reduceIte] at h
    unfold decide_step
    rcases acc with _ | p
    · simp [hf, h]
    · simp [hf, h]

theorem stepInv_step (board : List (List Nat)) (n : Nat) (acc : Option (Direction × Int))
    (mv : Direction) (hmv : ord mv = n) (hinv : StepInv board n acc) :
    StepInv board (n + 1) (decide_step board acc mv) := by
  obtain ⟨hnone, hsome⟩ := hinv
  rcases hms : move_score board mv with _ | s'
  · rw [decide_step_of_none board acc mv hms]
    constructor
    · intro hacc e he
      rcases Nat.lt_succ_iff_lt_or_eq.mp he with hlt | heq
      · exact hnone hacc e hlt
      · rw [ord_inj e mv (heq.trans hmv.symm)]
        exact hms
    · intro d s hacc
      obtain ⟨hdlt, hds, hbnd⟩ := hsome d s hacc
      refine ⟨Nat.lt_succ_of_lt hdlt, hds, ?_⟩
      intro e t he ht
      rcases Nat.lt_succ_iff_lt_or_eq.mp he with hlt | heq
      · exact hbnd e t hlt ht
      · rw [ord_inj e mv (heq.trans hmv.symm), hms] at ht
        exact Option.noConfusion ht
  · rw [decide_step_of_some board acc mv s' hms]
    rcases acc with _ | ⟨bm, bs⟩
    · show StepInv board (n + 1) (some (mv, s'))
      constructor
      · intro hacc
        exact Option.noConfusion hacc
      · intro d s hacc
        simp only [Option.some.injEq, Prod.mk.injEq] at hacc
        obtain ⟨rfl, rfl⟩ := hacc
        refine ⟨hmv ▸ Nat.lt_succ_self n, hms, ?_⟩
        intro e t he ht
        rcases Nat.lt_succ_iff_lt_or_eq.mp he with hlt | heq
        · rw [hnone rfl e hlt] at ht
          exact Option.noConfusion ht
        · rw [ord_inj e mv (heq.trans hmv.symm), hms] at ht
          obtain rfl := Option.some.inj ht
          refine ⟨le_refl _, ?_⟩
          intro hord
          rw [ord_inj e mv (heq.trans hmv.symm)] at hord
          exact absurd hord (lt_irrefl _)
    · obtain ⟨hbmlt, hbms, hbnd⟩ := hsome bm bs rfl
      show StepInv board (n + 1) (if s' > bs then some (mv, s') else some (bm, bs))
      by_cases hgt : s' > bs
      · rw [if_pos hgt]
        constructor
        · intro hacc
          exact Option.noConfusion hacc
        · intro d s hacc
          simp only [Option.some.injEq, Prod.mk.injEq] at hacc
          obtain ⟨rfl, rfl⟩ := hacc
          refine ⟨hmv ▸ Nat.lt_succ_self n, hms, ?_⟩
          intro e t he ht
          rcases Nat.lt_succ_iff_lt_or_eq.mp he with hlt | heq
          · have hb := hbnd e t hlt ht
            have hts : t < s' := lt_of_le_of_lt hb.1 hgt
            exact ⟨le_of_lt hts, fun _ => hts⟩
          · rw [ord_inj e mv (heq.trans hmv.symm), hms] at ht
            obtain rfl := Option.some.inj ht
            refine ⟨le_refl _, ?_⟩
            intro hord
            rw [ord_inj e mv (heq.trans hmv.symm)] at hord
            exact absurd hord (lt_irrefl _)
      · rw [if_neg hgt]
        constructor
        · intro hacc
          exact Option.noConfusion hacc
        · intro d s hacc
          simp only [Option.some.injEq, Prod.mk.injEq] at hacc
          obtain ⟨rfl, rfl⟩ := hacc
          refine ⟨Nat.lt_succ_of_lt hbmlt, hbms, ?_⟩
          intro e t he ht
          rcases Nat.lt_succ_iff_lt_or_eq.mp he with hlt | heq
          · exact hbnd e t hlt ht
          · rw [ord_inj e mv (heq.trans hmv.symm), hms] at ht
            obtain rfl := Option.some.inj ht
            refine ⟨le_of_not_lt hgt, ?_⟩
            intro hord
            rw [ord_inj e mv (heq.trans hmv.symm), hmv] at hord
            exact absurd (hord.trans hbmlt) (lt_irrefl n)

theorem stepInv_core (board : List (List Nat)) :
    StepInv board 4 (decide_action_core board) := by
  have h0 : StepInv board 0 none :=
    ⟨fun _ e he => absurd he (Nat.not_lt_zero _), fun d s h => Option.noConfusion h⟩
  have h1 := stepInv_step board 0 none Direction.up rfl h0
  have h2 := stepInv_step board 1 _ Direction.down rfl h1
  have h3 := stepInv_step board 2 _ Direction.left rfl h2
  have h4 := stepInv_step board 3 _ Direction.right rfl h3
  exact h4

/-- Claim C10: whenever some direction changes the board, the decision
policy ignores its random input — any two runs return the same
direction — and the returned direction is a legal move whose depth-2
lookahead score is greatest among all legal moves, every legal move
strictly earlier in the iteration order up, down, left, right scoring
strictly less. -/
theorem decide_action_deterministic_first_argmax (board : List (List Nat))
    (h : ∃ mv, (move_local board mv).2.2 = true) :
    (∀ r1 r2 : Fin 4, decide_action board r1 = decide_action board r2) ∧
      ∃ s, move_score board (decide_action board 0) = some s ∧
        (∀ mv t, move_score board mv = some t → t ≤ s) ∧
        (∀ mv t, move_score board mv = some t →
          ord mv < ord (decide_action board 0) → t < s) := by
  obtain ⟨mv0, hmv0⟩ := h
  have hms0 : move_score board mv0 = some (lookahead_score (move_local board mv0).1 2) := by
    simp [move_score, hmv0]
  have hinv := stepInv_core board
  rcases hcore : decide_action_core board with _ | ⟨d, s⟩
  · exfalso
    rw [hcore] at hinv
    rw [hinv.1 rfl mv0 (ord_lt_four mv0)] at hms0
    exact Option.noConfusion hms0
  · rw [hcore] at hinv
    obtain ⟨hdlt, hds, hbnd⟩ := hinv.2 d s rfl
    have hda : ∀ r : Fin 4, decide_action board r = d := by
      intro r
      unfold decide_action
      rw [hcore]
    constructor
    · intro r1 r2
      rw [hda r1, hda r2]
    · refine ⟨s, ?_, ?_, ?_⟩
      · rw [hda 0]
        exact hds
      · intro mv t hmt
        exact (hbnd mv t (ord_lt_four mv) hmt).1
      · intro mv t hmt hlt
        rw [hda 0] at hlt
        exact (hbnd mv t (ord_lt_four mv) hmt).2 hlt

/-- Witness for C10: at a board with a legal move, two different random
draws yield the same decision. -/
theorem decide_action_deterministic_witness :
    decide_action [[2,2,0,0],[0,0,0,0],[0,0,0,0],[0,0,0,0]] 1 =
      decide_action [[2,2,0,0],[0,0,0,0],[0,0,0,0],[0,0,0,0]] 3 :=
  (decide_action_deterministic_first_argmax [[2,2,0,0],[0,0,0,0],[0,0,0,0],[0,0,0,0]]
    ⟨Direction.left, by decide⟩).1 1 3

/-- Witness for C7 at a concrete 4x4 board. -/
theorem transpose_reverse_involution_witness :
    transpose (transpose [[2,0,0,0],[0,4,0,0],[0,0,8,0],[0,0,0,16]]) =
        [[2,0,0,0],[0,4,0,0],[0,0,8,0],[0,0,0,16]] ∧
      reverse (reverse [[2,0,0,0],[0,4,0,0],[0,0,8,0],[0,0,0,16]]) =
        [[2,0,0,0],[0,4,0,0],[0,0,8,0],[0,0,0,16]] :=
  transpose_reverse_involution [[2,0,0,0],[0,4,0,0],[0,0,8,0],[0,0,0,16]] (by decide)
